import Mathlib

set_option maxHeartbeats 1000000
set_option maxRecDepth 4000

/- Shallow embedding of the RNA folding core (src/biophys/folding-1d/src/main.rs).
   Rust panics (unwrap, expect, unreachable) are modelled as Option/Except failure.
   Fixed-size machine integers never overflow here (all quantities are small list
   lengths), so Nat is used throughout; the single usize subtraction in
   paired_free_energy is modelled with truncated Nat subtraction and proved exact. -/

inductive RnaNucleotide where
  | A
  | C
  | G
  | U
deriving DecidableEq

/-- Transcribed from impl Nucleotide for RnaNucleotide: A-U and C-G, no wobble. -/
def can_pair (a b : RnaNucleotide) : Bool :=
  match a, b with
  | .A, .U | .U, .A => true
  | .C, .G | .G, .C => true
  | _, _ => false

inductive RnaSegment where
  | Single (base : RnaNucleotide)
  | Loop (bases : List RnaNucleotide)
deriving DecidableEq

/-- RnaSegment::as_loop. -/
def RnaSegment.as_loop : RnaSegment → RnaSegment
  | .Single base => .Loop [base]
  | .Loop bases => .Loop bases

def RnaSegment.is_single : RnaSegment → Bool
  | .Single _ => true
  | .Loop _ => false

structure RnaStructure where
  segments : List RnaSegment
deriving DecidableEq

/-- Helper for RnaStructure::with_first_single_looped: replace the first Single
    (scanning from the front) by its as_loop image; none when no Single exists
    (the Rust code calls .unwrap() there, i.e. panics). -/
def promote_first : List RnaSegment → Option (List RnaSegment)
  | [] => none
  | RnaSegment.Single base :: rest => some ((RnaSegment.Single base).as_loop :: rest)
  | RnaSegment.Loop bases :: rest =>
      (promote_first rest).map (fun tail => RnaSegment.Loop bases :: tail)

/-- RnaStructure::with_first_single_looped; none models the unwrap panic. -/
def with_first_single_looped (s : RnaStructure) : Option RnaStructure :=
  (promote_first s.segments).map RnaStructure.mk

/-- RnaStructure::split_at_first_pair: (a_head, a_tail, b_head, b_tail).
    In the source the catch-all arm indexes [..1]/[1..]; inside the search it is
    only reached with both strands non-empty, where take 1 / drop 1 agree with it. -/
def split_at_first_pair (sa sb : RnaStructure) :
    RnaStructure × RnaStructure × RnaStructure × RnaStructure :=
  match sa.segments, sb.segments with
  | RnaSegment.Loop bases :: arest, RnaSegment.Single _ :: _ =>
      (⟨[RnaSegment.Loop bases]⟩, ⟨arest⟩, ⟨[]⟩, sb)
  | RnaSegment.Single _ :: _, RnaSegment.Loop bases :: brest =>
      (⟨[]⟩, sa, ⟨[RnaSegment.Loop bases]⟩, ⟨brest⟩)
  | _, _ =>
      (⟨sa.segments.take 1⟩, ⟨sa.segments.drop 1⟩,
       ⟨sb.segments.take 1⟩, ⟨sb.segments.drop 1⟩)

/-- RnaStructure::join: append, coalescing a trailing Loop with a leading Loop. -/
def join (s other : RnaStructure) : RnaStructure :=
  match s.segments.getLast?, other.segments with
  | some (RnaSegment.Loop tail_loop), RnaSegment.Loop head_loop :: rest =>
      ⟨s.segments.dropLast ++ RnaSegment.Loop (tail_loop ++ head_loop) :: rest⟩
  | _, _ => ⟨s.segments ++ other.segments⟩

/-- One pass over an arm as in paired_free_energy: accumulates the free-energy
    penalty while collecting the Single bases in order (the filter_map pass). -/
def arm_scan : List RnaSegment → Nat × List RnaNucleotide
  | [] => (0, [])
  | RnaSegment.Loop bases :: rest =>
      let (penalty, strand) := arm_scan rest
      (bases.length + penalty, strand)
  | RnaSegment.Single base :: rest =>
      let (penalty, strand) := arm_scan rest
      (1 + penalty, base :: strand)

/-- RnaStructure::paired_free_energy. -/
def paired_free_energy (sa sb : RnaStructure) : Nat :=
  let (free_energy_a, strand_a) := arm_scan sa.segments
  let (free_energy_b, strand_b) := arm_scan sb.segments
  let h_bonds := ((strand_a.zip strand_b).filter (fun p => can_pair p.1 p.2)).length
  free_energy_a + free_energy_b - h_bonds * 2

abbrev SearchResult := (RnaStructure × RnaStructure) × Nat

/-- The reduction step of rayon min_by_key: the earlier element wins ties. -/
def min_first (x y : SearchResult) : SearchResult :=
  if y.2 < x.2 then y else x

/-- The body evaluated for one candidate branch inside strand_permute_search;
    rec is the recursive call (none models a propagated panic). -/
def search_step (rec : RnaStructure → RnaStructure → Option SearchResult)
    (sa sb : RnaStructure) : Option SearchResult :=
  let a_head := (split_at_first_pair sa sb).1
  let a_tail := (split_at_first_pair sa sb).2.1
  let b_head := (split_at_first_pair sa sb).2.2.1
  let b_tail := (split_at_first_pair sa sb).2.2.2
  let head_energy := paired_free_energy a_head b_head
  if a_tail.segments.isEmpty || b_tail.segments.isEmpty then
    some ((join a_head a_tail, join b_head b_tail),
      head_energy + paired_free_energy a_tail b_tail)
  else
    match rec a_tail b_tail with
    | none => none
    | some ((opt_a_tail, opt_b_tail), tail_energy) =>
        some ((join a_head opt_a_tail, join b_head opt_b_tail),
          head_energy + tail_energy)

/-- Fuelled RnaStructure::strand_permute_search. The Rust array literal builds
    both promoted strands before any branch runs, so a missing Single on either
    arm panics the whole call (none). A panic in any of the three rayon branches
    likewise propagates. Fuel equal to the total segment count suffices (proved
    below); at fuel 0 both arms are empty and the promotion panic fires anyway. -/
def search_go : Nat → RnaStructure → RnaStructure → Option SearchResult
  | 0, _, _ => none
  | fuel + 1, sa, sb =>
    match with_first_single_looped sa, with_first_single_looped sb with
    | some sa_bulge, some sb_bulge =>
      match search_step (search_go fuel) sa sb,
            search_step (search_go fuel) sa_bulge sb,
            search_step (search_go fuel) sa sb_bulge with
      | some c1, some c2, some c3 => some (min_first (min_first c1 c2) c3)
      | _, _, _ => none
    | _, _ => none

/-- RnaStructure::strand_permute_search. -/
def strand_permute_search (sa sb : RnaStructure) : Option SearchResult :=
  search_go (sa.segments.length + sb.segments.length) sa sb

/-- The evaluation of a single candidate branch, phrased with the limit search
    (equal to the fuelled body once the fuel reaches the measure; proved below). -/
def eval_candidate (sa sb : RnaStructure) : Option SearchResult :=
  search_step strand_permute_search sa sb

/-- The key used by split_at_major_loop's max_by_key closure. -/
def seg_key : RnaSegment → Nat
  | RnaSegment.Loop bases => bases.length
  | _ => 0

/-- One fold step of Iterator::max_by_key: the later element wins ties (Rust
    max_by_key returns the last maximal element). -/
def major_step (acc : Option (Nat × RnaSegment)) (x : Nat × RnaSegment) :
    Option (Nat × RnaSegment) :=
  match acc with
  | none => some x
  | some y => if seg_key y.2 ≤ seg_key x.2 then some x else some y

/-- Iterator::max_by_key over the enumerated segments. -/
def pick_major (l : List (Nat × RnaSegment)) : Option (Nat × RnaSegment) :=
  l.foldl major_step none

/-- RnaStructure::split_at_major_loop; none models the expect panic on an empty
    structure. -/
def split_at_major_loop (s : RnaStructure) :
    Option (RnaStructure × RnaSegment × RnaStructure) :=
  match pick_major s.segments.enum with
  | none => none
  | some (idx, seg) =>
      some (⟨(s.segments.take idx).reverse⟩, seg, ⟨s.segments.drop (idx + 1)⟩)

/-- RnaStructure::minimize_free_energy. none models the panics: expect on an
    empty structure, a panic escaping the search, and the unreachable arm when
    the selected major segment is not a Loop. -/
def minimize_free_energy (s : RnaStructure) : Option (RnaStructure × Nat × Nat) :=
  match split_at_major_loop s with
  | none => none
  | some (strand_a, loop_segment, strand_b) =>
    let initial_free_energy := paired_free_energy strand_a strand_b
    match strand_permute_search strand_a strand_b with
    | none => none
    | some ((opt_strand_a, opt_strand_b), opt_free_energy) =>
      match loop_segment with
      | RnaSegment.Loop bases =>
          some (⟨opt_strand_a.segments.reverse ++
                  RnaSegment.Loop bases :: opt_strand_b.segments⟩,
            initial_free_energy + bases.length,
            opt_free_energy + bases.length)
      | _ => none

inductive ParseError where
  | invalidToken (token : Char)
  | unterminatedLoop
deriving DecidableEq

def lbrace : Char := Char.ofNat 123

def rbrace : Char := Char.ofNat 125

/-- parse_single. -/
def parse_single (token : Char) : Except ParseError RnaNucleotide :=
  if token = 'a' ∨ token = 'A' then .ok .A
  else if token = 'c' ∨ token = 'C' then .ok .C
  else if token = 'g' ∨ token = 'G' then .ok .G
  else if token = 'u' ∨ token = 'U' then .ok .U
  else .error (.invalidToken token)

/-- str::split_once on the loop-closing delimiter. -/
def split_once (sep : Char) : List Char → Option (List Char × List Char)
  | [] => none
  | c :: cs =>
      if c = sep then some ([], cs)
      else (split_once sep cs).map (fun p => (c :: p.1, p.2))

/-- collect::<Result<Vec<_>, _>>() over a list of results. -/
def collect_results : List (Except ParseError RnaNucleotide) →
    Except ParseError (List RnaNucleotide)
  | [] => .ok []
  | .error e :: _ => .error e
  | .ok n :: rest =>
      match collect_results rest with
      | .error e => .error e
      | .ok ns => .ok (n :: ns)

def result_ok {ε α : Type} : Except ε α → Bool
  | .ok _ => true
  | .error _ => false

/-- parse_nucleotides: map parse_single, take_while is_ok, collect. -/
def parse_nucleotides (cs : List Char) : Except ParseError (List RnaNucleotide) :=
  collect_results ((cs.map parse_single).takeWhile result_ok)

/-- Fuelled parse_sequence body; fuel equal to the input length suffices (each
    iteration consumes at least the leading character), so the fuel-exhaustion
    arm below is unreachable from parse_sequence. -/
def parse_sequence_go : Nat → List Char → Except ParseError RnaStructure
  | _, [] => .ok ⟨[]⟩
  | 0, _ :: _ => .error .unterminatedLoop
  | fuel + 1, token :: rest =>
    if token = lbrace then
      match split_once rbrace rest with
      | none => .error .unterminatedLoop
      | some (head, tail) =>
        match parse_nucleotides head with
        | .error e => .error e
        | .ok bases =>
          match parse_sequence_go fuel tail with
          | .error e => .error e
          | .ok s => .ok ⟨RnaSegment.Loop bases :: s.segments⟩
    else
      match parse_single token with
      | .error e => .error e
      | .ok base =>
        match parse_sequence_go fuel rest with
        | .error e => .error e
        | .ok s => .ok ⟨RnaSegment.Single base :: s.segments⟩

/-- parse_sequence. -/
def parse_sequence (cs : List Char) : Except ParseError RnaStructure :=
  parse_sequence_go cs.length cs

/-- Modelled from the spec (section 4.3): the per-arm baseline penalty, stated
    compositionally for comparison with the source transcription. -/
def spec_penalty (segs : List RnaSegment) : Nat :=
  (segs.map (fun seg =>
    match seg with
    | RnaSegment.Single _ => 1
    | RnaSegment.Loop bases => bases.length)).sum

/-- Modelled from the spec (section 4.3): the in-order Single bases of an arm. -/
def spec_singles (segs : List RnaSegment) : List RnaNucleotide :=
  segs.filterMap (fun seg =>
    match seg with
    | RnaSegment.Single base => some base
    | RnaSegment.Loop _ => none)

/-- Modelled from the spec (section 4.3): the bond counter over the zipped
    filtered strands. -/
def spec_h_bonds (sa sb : List RnaNucleotide) : Nat :=
  ((sa.zip sb).filter (fun p => can_pair p.1 p.2)).length

/-- Whether the first segment of a structure is a non-empty Loop. -/
def head_is_nonempty_loop (s : RnaStructure) : Bool :=
  match s.segments with
  | RnaSegment.Loop bases :: _ => !bases.isEmpty
  | _ => false

/-- The input of concrete scenario 1. -/
def scenario1_chars : List Char :=
  ['A', 'A', 'A', 'A', lbrace, 'C', 'C', 'C', 'C', rbrace, 'U', 'U', 'U', 'U']

/-- The parsed structure of concrete scenario 1. -/
def scenario1_structure : RnaStructure :=
  ⟨[RnaSegment.Single .A, RnaSegment.Single .A, RnaSegment.Single .A,
    RnaSegment.Single .A,
    RnaSegment.Loop [.C, .C, .C, .C],
    RnaSegment.Single .U, RnaSegment.Single .U, RnaSegment.Single .U,
    RnaSegment.Single .U]⟩

/- == Basic lemmas about promotion == -/

theorem promote_first_length : ∀ {l l' : List RnaSegment},
    promote_first l = some l' → l'.length = l.length := by
  intro l
  induction l with
  | nil => intro l' h; simp [promote_first] at h
  | cons seg rest ih =>
    intro l' h
    cases seg with
    | Single base =>
      simp [promote_first, RnaSegment.as_loop] at h
      subst h; simp
    | Loop bases =>
      simp [promote_first] at h
      obtain ⟨tail, htail, rfl⟩ := h
      simp [ih htail]

theorem promote_first_none : ∀ {l : List RnaSegment},
    (∀ seg ∈ l, seg.is_single = false) → promote_first l = none := by
  intro l
  induction l with
  | nil => intro _; rfl
  | cons seg rest ih =>
    intro h
    cases seg with
    | Single base =>
      have hmem := h (RnaSegment.Single base) (List.mem_cons_self _ _)
      simp [RnaSegment.is_single] at hmem
    | Loop bases =>
      have : promote_first rest = none := ih (fun s hs => h s (by simp [hs]))
      simp [promote_first, this]

theorem promote_first_ne_nil {l l' : List RnaSegment}
    (h : promote_first l = some l') : l ≠ [] := by
  intro hnil; subst hnil; simp [promote_first] at h

theorem with_first_single_looped_length {s t : RnaStructure}
    (h : with_first_single_looped s = some t) :
    t.segments.length = s.segments.length := by
  simp [with_first_single_looped] at h
  obtain ⟨l', hl', rfl⟩ := h
  exact promote_first_length hl'

theorem with_first_single_looped_ne_nil {s t : RnaStructure}
    (h : with_first_single_looped s = some t) : s.segments ≠ [] := by
  simp [with_first_single_looped] at h
  obtain ⟨l', hl', rfl⟩ := h
  exact promote_first_ne_nil hl'

/- == The energy model: the source scan versus the spec formula == -/

theorem arm_scan_fst : ∀ l : List RnaSegment, (arm_scan l).1 = spec_penalty l := by
  intro l
  induction l with
  | nil => rfl
  | cons seg rest ih =>
    cases seg <;> simp [arm_scan, spec_penalty, List.map_cons, List.sum_cons] <;>
      simp [spec_penalty] at ih <;> omega

theorem arm_scan_snd : ∀ l : List RnaSegment, (arm_scan l).2 = spec_singles l := by
  intro l
  induction l with
  | nil => rfl
  | cons seg rest ih =>
    cases seg <;> simp [arm_scan, spec_singles, List.filterMap_cons] <;> exact ih

theorem spec_singles_length_le :
    ∀ l : List RnaSegment, (spec_singles l).length ≤ spec_penalty l := by
  intro l
  induction l with
  | nil => simp [spec_singles, spec_penalty]
  | cons seg rest ih =>
    cases seg <;> simp [spec_singles, spec_penalty, List.filterMap_cons] <;>
      simp [spec_singles, spec_penalty] at ih <;> omega

theorem spec_h_bonds_le_left (sa sb : List RnaNucleotide) :
    spec_h_bonds sa sb ≤ sa.length := by
  calc spec_h_bonds sa sb ≤ (sa.zip sb).length := List.length_filter_le _ _
    _ ≤ sa.length := by rw [List.length_zip]; omega

theorem spec_h_bonds_le_right (sa sb : List RnaNucleotide) :
    spec_h_bonds sa sb ≤ sb.length := by
  calc spec_h_bonds sa sb ≤ (sa.zip sb).length := List.length_filter_le _ _
    _ ≤ sb.length := by rw [List.length_zip]; omega

theorem h_bonds_bound (sa sb : RnaStructure) :
    spec_h_bonds (spec_singles sa.segments) (spec_singles sb.segments) * 2 ≤
      spec_penalty sa.segments + spec_penalty sb.segments := by
  have ha := (spec_h_bonds_le_left (spec_singles sa.segments) (spec_singles sb.segments)).trans
    (spec_singles_length_le sa.segments)
  have hb := (spec_h_bonds_le_right (spec_singles sa.segments) (spec_singles sb.segments)).trans
    (spec_singles_length_le sb.segments)
  omega

theorem paired_free_energy_eq (sa sb : RnaStructure) :
    paired_free_energy sa sb =
      spec_penalty sa.segments + spec_penalty sb.segments -
        spec_h_bonds (spec_singles sa.segments) (spec_singles sb.segments) * 2 := by
  unfold paired_free_energy
  rw [show arm_scan sa.segments = (spec_penalty sa.segments, spec_singles sa.segments)
      from Prod.ext (arm_scan_fst _) (arm_scan_snd _),
    show arm_scan sb.segments = (spec_penalty sb.segments, spec_singles sb.segments)
      from Prod.ext (arm_scan_fst _) (arm_scan_snd _)]
  rfl

theorem paired_free_energy_add_h (sa sb : RnaStructure) :
    paired_free_energy sa sb +
      spec_h_bonds (spec_singles sa.segments) (spec_singles sb.segments) * 2 =
      spec_penalty sa.segments + spec_penalty sb.segments := by
  rw [paired_free_energy_eq]
  have := h_bonds_bound sa sb
  omega

/- == Small rewriting lemmas for the spec-side energy functions == -/

theorem spec_penalty_nil : spec_penalty [] = 0 := rfl

theorem spec_penalty_cons_single (b : RnaNucleotide) (l : List RnaSegment) :
    spec_penalty (RnaSegment.Single b :: l) = 1 + spec_penalty l := by
  simp [spec_penalty]

theorem spec_penalty_cons_loop (bs : List RnaNucleotide) (l : List RnaSegment) :
    spec_penalty (RnaSegment.Loop bs :: l) = bs.length + spec_penalty l := by
  simp [spec_penalty]

theorem spec_singles_nil : spec_singles [] = [] := rfl

theorem spec_singles_cons_single (b : RnaNucleotide) (l : List RnaSegment) :
    spec_singles (RnaSegment.Single b :: l) = b :: spec_singles l := by
  simp [spec_singles, List.filterMap_cons]

theorem spec_singles_cons_loop (bs : List RnaNucleotide) (l : List RnaSegment) :
    spec_singles (RnaSegment.Loop bs :: l) = spec_singles l := by
  simp [spec_singles, List.filterMap_cons]

theorem spec_h_bonds_nil_left (l : List RnaNucleotide) : spec_h_bonds [] l = 0 := rfl

theorem spec_h_bonds_nil_right (l : List RnaNucleotide) : spec_h_bonds l [] = 0 := by
  simp [spec_h_bonds]

theorem spec_h_bonds_cons (a b : RnaNucleotide) (sa sb : List RnaNucleotide) :
    spec_h_bonds (a :: sa) (b :: sb) =
      (if can_pair a b then 1 else 0) + spec_h_bonds sa sb := by
  simp only [spec_h_bonds, List.zip_cons_cons, List.filter_cons]
  cases h : can_pair a b <;> simp [h] <;> omega

/- == split_at_first_pair: shrink and energy additivity == -/

theorem split_shrink (sa sb : RnaStructure)
    (ha : sa.segments ≠ []) (hb : sb.segments ≠ []) :
    (split_at_first_pair sa sb).2.1.segments.length +
      (split_at_first_pair sa sb).2.2.2.segments.length <
      sa.segments.length + sb.segments.length := by
  obtain ⟨la⟩ := sa
  obtain ⟨lb⟩ := sb
  match la, lb with
  | [], _ => simp at ha
  | _, [] => simp at hb
  | RnaSegment.Loop bsa :: ar, RnaSegment.Single nb :: br =>
    simp [split_at_first_pair]
  | RnaSegment.Single na :: ar, RnaSegment.Loop bsb :: br =>
    simp [split_at_first_pair]
  | RnaSegment.Single na :: ar, RnaSegment.Single nb :: br =>
    simp [split_at_first_pair]; omega
  | RnaSegment.Loop bsa :: ar, RnaSegment.Loop bsb :: br =>
    simp [split_at_first_pair]; omega

theorem split_energy (sa sb : RnaStructure)
    (ha : sa.segments ≠ []) (hb : sb.segments ≠ []) :
    paired_free_energy (split_at_first_pair sa sb).1 (split_at_first_pair sa sb).2.2.1 +
      paired_free_energy (split_at_first_pair sa sb).2.1 (split_at_first_pair sa sb).2.2.2 =
      paired_free_energy sa sb := by
  obtain ⟨la⟩ := sa
  obtain ⟨lb⟩ := sb
  match la, lb with
  | [], _ => simp at ha
  | _, [] => simp at hb
  | RnaSegment.Loop bsa :: ar, RnaSegment.Single nb :: br =>
    have hbound := h_bonds_bound ⟨ar⟩ ⟨RnaSegment.Single nb :: br⟩
    simp only [split_at_first_pair, paired_free_energy_eq] at *
    simp only [spec_penalty_nil, spec_penalty_cons_single, spec_penalty_cons_loop,
      spec_singles_nil, spec_singles_cons_single, spec_singles_cons_loop,
      spec_h_bonds_nil_right, spec_h_bonds_nil_left] at *
    omega
  | RnaSegment.Single na :: ar, RnaSegment.Loop bsb :: br =>
    have hbound := h_bonds_bound ⟨RnaSegment.Single na :: ar⟩ ⟨br⟩
    simp only [split_at_first_pair, paired_free_energy_eq] at *
    simp only [spec_penalty_nil, spec_penalty_cons_single, spec_penalty_cons_loop,
      spec_singles_nil, spec_singles_cons_single, spec_singles_cons_loop,
      spec_h_bonds_nil_right, spec_h_bonds_nil_left] at *
    omega
  | RnaSegment.Single na :: ar, RnaSegment.Single nb :: br =>
    have hbound := h_bonds_bound ⟨ar⟩ ⟨br⟩
    simp only [split_at_first_pair, paired_free_energy_eq, List.take, List.drop] at *
    simp only [spec_penalty_nil, spec_penalty_cons_single,
      spec_singles_nil, spec_singles_cons_single,
      spec_h_bonds_cons, spec_h_bonds_nil_right, spec_h_bonds_nil_left] at *
    cases hcp : can_pair na nb <;> simp [hcp] <;> omega
  | RnaSegment.Loop bsa :: ar, RnaSegment.Loop bsb :: br =>
    have hbound := h_bonds_bound ⟨ar⟩ ⟨br⟩
    simp only [split_at_first_pair, paired_free_energy_eq, List.take, List.drop] at *
    simp only [spec_penalty_nil, spec_penalty_cons_loop,
      spec_singles_nil, spec_singles_cons_loop,
      spec_h_bonds_nil_right, spec_h_bonds_nil_left] at *
    omega

/- == min_first == -/

theorem min_first_le_left (x y : SearchResult) : (min_first x y).2 ≤ x.2 := by
  unfold min_first
  split <;> omega

theorem min_first_eq_left {x y : SearchResult} (h : x.2 ≤ y.2) : min_first x y = x := by
  unfold min_first
  split <;> [omega; rfl]

theorem min_first_eq_right {x y : SearchResult} (h : y.2 < x.2) : min_first x y = y := by
  unfold min_first
  split <;> [rfl; omega]

/- == Both tails non-empty forces both sources non-empty == -/

theorem split_sources_ne_nil (sa sb : RnaStructure)
    (hta : (split_at_first_pair sa sb).2.1.segments ≠ [])
    (htb : (split_at_first_pair sa sb).2.2.2.segments ≠ []) :
    sa.segments ≠ [] ∧ sb.segments ≠ [] := by
  obtain ⟨la⟩ := sa
  obtain ⟨lb⟩ := sb
  match la, lb with
  | [], lb => simp [split_at_first_pair] at hta
  | RnaSegment.Single na :: ar, [] => simp [split_at_first_pair] at htb
  | RnaSegment.Loop bsa :: ar, [] => simp [split_at_first_pair] at htb
  | RnaSegment.Loop bsa :: ar, RnaSegment.Single nb :: br => simp
  | RnaSegment.Single na :: ar, RnaSegment.Loop bsb :: br => simp
  | RnaSegment.Single na :: ar, RnaSegment.Single nb :: br => simp
  | RnaSegment.Loop bsa :: ar, RnaSegment.Loop bsb :: br => simp

/- == Fuel congruence and stabilization for the search == -/

theorem search_step_congr {g1 g2 : RnaStructure → RnaStructure → Option SearchResult}
    {f : Nat}
    (h : ∀ x y : RnaStructure,
      x.segments.length + y.segments.length ≤ f → g1 x y = g2 x y)
    (sa sb : RnaStructure)
    (hm : sa.segments.length + sb.segments.length ≤ f + 1) :
    search_step g1 sa sb = search_step g2 sa sb := by
  simp only [search_step]
  cases hcase : ((split_at_first_pair sa sb).2.1.segments.isEmpty ||
      (split_at_first_pair sa sb).2.2.2.segments.isEmpty) with
  | true => simp [hcase]
  | false =>
    simp only [hcase, Bool.false_eq_true, if_false]
    have hta : (split_at_first_pair sa sb).2.1.segments ≠ [] := by
      rcases Bool.or_eq_false_iff.mp hcase with ⟨h1, _⟩
      exact fun hh => by simp [hh] at h1
    have htb : (split_at_first_pair sa sb).2.2.2.segments ≠ [] := by
      rcases Bool.or_eq_false_iff.mp hcase with ⟨_, h2⟩
      exact fun hh => by simp [hh] at h2
    obtain ⟨hsa, hsb⟩ := split_sources_ne_nil sa sb hta htb
    have hlt := split_shrink sa sb hsa hsb
    rw [h (split_at_first_pair sa sb).2.1 (split_at_first_pair sa sb).2.2.2 (by omega)]

theorem search_go_succ_eq (fuel : Nat) (sa sb : RnaStructure) :
    search_go (fuel + 1) sa sb =
      match with_first_single_looped sa, with_first_single_looped sb with
      | some sa_bulge, some sb_bulge =>
        match search_step (search_go fuel) sa sb,
              search_step (search_go fuel) sa_bulge sb,
              search_step (search_go fuel) sa sb_bulge with
        | some c1, some c2, some c3 => some (min_first (min_first c1 c2) c3)
        | _, _, _ => none
      | _, _ => none := rfl

theorem search_go_succ (f : Nat) :
    ∀ sa sb : RnaStructure, sa.segments.length + sb.segments.length ≤ f →
      search_go (f + 1) sa sb = search_go f sa sb := by
  induction f with
  | zero =>
    intro sa sb hm
    obtain ⟨la⟩ := sa
    obtain ⟨lb⟩ := sb
    have hla : la = [] := by cases la <;> simp_all
    have hlb : lb = [] := by cases lb <;> simp_all
    subst hla; subst hlb
    simp [search_go, with_first_single_looped, promote_first]
  | succ f ih =>
    intro sa sb hm
    have hstep : ∀ x y : RnaStructure,
        x.segments.length + y.segments.length ≤ f + 1 →
        search_step (search_go (f + 1)) x y = search_step (search_go f) x y :=
      fun x y hxy => search_step_congr (fun u v huv => ih u v huv) x y hxy
    show search_go (f + 1 + 1) sa sb = search_go (f + 1) sa sb
    rw [search_go_succ_eq, search_go_succ_eq]
    cases hpa : with_first_single_looped sa with
    | none => rfl
    | some sa_bulge =>
      cases hpb : with_first_single_looped sb with
      | none => rfl
      | some sb_bulge =>
        dsimp only
        rw [hstep sa sb hm,
          hstep sa_bulge sb (by rw [with_first_single_looped_length hpa]; exact hm),
          hstep sa sb_bulge (by rw [with_first_single_looped_length hpb]; exact hm)]

theorem search_go_stable (f : Nat) (sa sb : RnaStructure)
    (h : sa.segments.length + sb.segments.length ≤ f) :
    search_go f sa sb = strand_permute_search sa sb := by
  unfold strand_permute_search
  induction f with
  | zero =>
    have h0 : sa.segments.length + sb.segments.length = 0 := Nat.le_zero.mp h
    rw [h0]
  | succ f ih =>
    rcases Nat.eq_or_lt_of_le h with heq | hlt
    · rw [heq]
    · have hf : sa.segments.length + sb.segments.length ≤ f := Nat.lt_succ_iff.mp hlt
      rw [search_go_succ f sa sb hf]
      exact ih hf

/- == The searched energy never exceeds the unmodified-alignment score == -/

theorem search_step_energy_le {f : Nat} {sa sb : RnaStructure}
    (hsa : sa.segments ≠ []) (hsb : sb.segments ≠ [])
    (ih : ∀ (x y : RnaStructure) (r : RnaStructure × RnaStructure) (e : Nat),
      search_go f x y = some (r, e) → e ≤ paired_free_energy x y)
    {r : RnaStructure × RnaStructure} {e : Nat}
    (h : search_step (search_go f) sa sb = some (r, e)) :
    e ≤ paired_free_energy sa sb := by
  have hsplit := split_energy sa sb hsa hsb
  simp only [search_step] at h
  cases hcase : ((split_at_first_pair sa sb).2.1.segments.isEmpty ||
      (split_at_first_pair sa sb).2.2.2.segments.isEmpty) with
  | true =>
    rw [if_pos hcase] at h
    have he : e = paired_free_energy (split_at_first_pair sa sb).1
        (split_at_first_pair sa sb).2.2.1 +
        paired_free_energy (split_at_first_pair sa sb).2.1
        (split_at_first_pair sa sb).2.2.2 := by
      injection h with h'
      exact (congrArg Prod.snd h').symm
    omega
  | false =>
    rw [if_neg (by simp [hcase])] at h
    cases hrec : search_go f (split_at_first_pair sa sb).2.1
        (split_at_first_pair sa sb).2.2.2 with
    | none => rw [hrec] at h; simp at h
    | some c =>
      obtain ⟨⟨oa, ob⟩, tail_energy⟩ := c
      rw [hrec] at h
      dsimp only at h
      have he : e = paired_free_energy (split_at_first_pair sa sb).1
          (split_at_first_pair sa sb).2.2.1 + tail_energy := by
        injection h with h'
        exact (congrArg Prod.snd h').symm
      have htail := ih _ _ _ _ hrec
      omega

theorem search_go_energy_le : ∀ (f : Nat) (sa sb : RnaStructure)
    (r : RnaStructure × RnaStructure) (e : Nat),
    search_go f sa sb = some (r, e) → e ≤ paired_free_energy sa sb := by
  intro f
  induction f with
  | zero => intro sa sb r e h; simp [search_go] at h
  | succ f ih =>
    intro sa sb r e h
    rw [search_go_succ_eq] at h
    cases hpa : with_first_single_looped sa with
    | none =>
      rw [hpa] at h
      cases hpb : with_first_single_looped sb <;> rw [hpb] at h <;> simp at h
    | some sa_bulge =>
      rw [hpa] at h
      cases hpb : with_first_single_looped sb with
      | none => rw [hpb] at h; simp at h
      | some sb_bulge =>
        rw [hpb] at h
        dsimp only at h
        cases hc1 : search_step (search_go f) sa sb with
        | none =>
          rw [hc1] at h
          cases hc2 : search_step (search_go f) sa_bulge sb <;>
            rw [hc2] at h <;>
            (cases hc3 : search_step (search_go f) sa sb_bulge <;>
              rw [hc3] at h <;> simp at h)
        | some c1 =>
          rw [hc1] at h
          cases hc2 : search_step (search_go f) sa_bulge sb with
          | none =>
            rw [hc2] at h
            cases hc3 : search_step (search_go f) sa sb_bulge <;>
              rw [hc3] at h <;> simp at h
          | some c2 =>
            rw [hc2] at h
            cases hc3 : search_step (search_go f) sa sb_bulge with
            | none => rw [hc3] at h; simp at h
            | some c3 =>
              rw [hc3] at h
              dsimp only at h
              have he : e = (min_first (min_first c1 c2) c3).2 := by
                injection h with h'
                exact (congrArg Prod.snd h').symm
              have hle : (min_first (min_first c1 c2) c3).2 ≤ c1.2 :=
                le_trans (min_first_le_left _ _) (min_first_le_left _ _)
              obtain ⟨r1, e1⟩ := c1
              have hbound := search_step_energy_le
                (with_first_single_looped_ne_nil hpa)
                (with_first_single_looped_ne_nil hpb) ih hc1
              simp only at hle
              omega

theorem strand_permute_search_energy_le {sa sb : RnaStructure}
    {r : RnaStructure × RnaStructure} {e : Nat}
    (h : strand_permute_search sa sb = some (r, e)) :
    e ≤ paired_free_energy sa sb :=
  search_go_energy_le _ sa sb r e h

/- == Claim C1 == -/

/-- C1 (corrected): when one of the two arms contains no Single segment, the
bulge branch is not excluded: the Rust array literal evaluates
with_first_single_looped eagerly, the unwrap panics, and the whole search call
fails (modelled as none) instead of returning a minimum over the remaining
candidates. -/
theorem claim_C1_no_single_arm_panics (sa sb : RnaStructure)
    (h : (∀ seg ∈ sa.segments, seg.is_single = false) ∨
         (∀ seg ∈ sb.segments, seg.is_single = false)) :
    strand_permute_search sa sb = none := by
  unfold strand_permute_search
  cases hm : sa.segments.length + sb.segments.length with
  | zero => rfl
  | succ f =>
    rw [search_go_succ_eq]
    rcases h with h | h
    · rw [show with_first_single_looped sa = none from by
        simp [with_first_single_looped, promote_first_none h]]
    · rw [show with_first_single_looped sb = none from by
        simp [with_first_single_looped, promote_first_none h]]
      cases with_first_single_looped sa <;> rfl

/-- C1 counterexample: search on an empty arm A versus a one-base arm B does not
return the minimum over the remaining feasible candidates; it fails (the code
panics in with_first_single_looped().unwrap()). -/
theorem claim_C1_counterexample :
    strand_permute_search ⟨[]⟩ ⟨[RnaSegment.Single RnaNucleotide.A]⟩ = none := rfl

/-- C1 witness: the amended theorem applied to a loop-only arm A. -/
theorem claim_C1_witness :
    strand_permute_search ⟨[RnaSegment.Loop [RnaNucleotide.G]]⟩
      ⟨[RnaSegment.Single RnaNucleotide.A]⟩ = none :=
  claim_C1_no_single_arm_panics _ _ (Or.inl (by decide))

/- == Claim C2 == -/

/-- C2 (amended): for non-empty arms every recursion level strictly shrinks the
total number of segments across both arms (though not necessarily both arms:
the Loop-versus-Single alignment passes one arm through unchanged), so the
recursion terminates, and fuel equal to the total segment count of the two arms
bounds the recursion depth: any larger fuel computes the same result. -/
theorem claim_C2_total_shrink_terminates (sa sb : RnaStructure)
    (ha : sa.segments ≠ []) (hb : sb.segments ≠ []) :
    ((split_at_first_pair sa sb).2.1.segments.length +
        (split_at_first_pair sa sb).2.2.2.segments.length <
        sa.segments.length + sb.segments.length) ∧
    ∀ f, sa.segments.length + sb.segments.length ≤ f →
      search_go f sa sb = strand_permute_search sa sb :=
  ⟨split_shrink sa sb ha hb, fun f hf => search_go_stable f sa sb hf⟩

/-- C2 counterexample: with arm A = [Loop [A], Single A] and arm B = [Single U]
(both non-empty), the split keeps arm B completely intact (b_tail equals the
whole arm B) while both tails are non-empty, so the recursive call at this
level consumes no segment from arm B; moreover the recursion then needs two
further levels although the shorter arm has a single segment. -/
theorem claim_C2_counterexample :
    split_at_first_pair
        ⟨[RnaSegment.Loop [RnaNucleotide.A], RnaSegment.Single RnaNucleotide.A]⟩
        ⟨[RnaSegment.Single RnaNucleotide.U]⟩ =
      (⟨[RnaSegment.Loop [RnaNucleotide.A]]⟩, ⟨[RnaSegment.Single RnaNucleotide.A]⟩,
       ⟨[]⟩, ⟨[RnaSegment.Single RnaNucleotide.U]⟩) := rfl

/-- C2 witness: the amended theorem applied to a pair of one-base arms. -/
theorem claim_C2_witness :
    ((split_at_first_pair ⟨[RnaSegment.Single RnaNucleotide.A]⟩
          ⟨[RnaSegment.Single RnaNucleotide.U]⟩).2.1.segments.length +
      (split_at_first_pair ⟨[RnaSegment.Single RnaNucleotide.A]⟩
          ⟨[RnaSegment.Single RnaNucleotide.U]⟩).2.2.2.segments.length <
      (⟨[RnaSegment.Single RnaNucleotide.A]⟩ : RnaStructure).segments.length +
      (⟨[RnaSegment.Single RnaNucleotide.U]⟩ : RnaStructure).segments.length) ∧
    search_go 5 ⟨[RnaSegment.Single RnaNucleotide.A]⟩
        ⟨[RnaSegment.Single RnaNucleotide.U]⟩ =
      strand_permute_search ⟨[RnaSegment.Single RnaNucleotide.A]⟩
        ⟨[RnaSegment.Single RnaNucleotide.U]⟩ :=
  ⟨(claim_C2_total_shrink_terminates _ _ (by decide) (by decide)).1,
   (claim_C2_total_shrink_terminates _ _ (by decide) (by decide)).2 5 (by decide)⟩

/- == Claim C3 == -/

/-- C3 (amended): whenever minimize_free_energy completes (no branch of the
search panics), the optimized energy is at most the initial energy. -/
theorem claim_C3_minimize_monotone (s s' : RnaStructure) (iE oE : Nat)
    (h : minimize_free_energy s = some (s', iE, oE)) : oE ≤ iE := by
  simp only [minimize_free_energy] at h
  cases hsplit : split_at_major_loop s with
  | none => rw [hsplit] at h; simp at h
  | some v =>
    obtain ⟨sa, seg, sb⟩ := v
    rw [hsplit] at h
    dsimp only at h
    cases hsearch : strand_permute_search sa sb with
    | none => rw [hsearch] at h; simp at h
    | some c =>
      obtain ⟨⟨oa, ob⟩, oe⟩ := c
      rw [hsearch] at h
      dsimp only at h
      cases seg with
      | Single base => simp at h
      | Loop bases =>
        have hoe := strand_permute_search_energy_le hsearch
        have hpair : iE = paired_free_energy sa sb + bases.length ∧
            oE = oe + bases.length := by
          injection h with h'
          have h2 := congrArg Prod.snd h'
          simp at h2
          exact ⟨h2.1.symm, h2.2.symm⟩
        omega

/-- C3 counterexample: the structure parsed from "A{G}{CCC}UU" has a major loop
and at least one Single on each arm (arm A = [Loop [G], Single A], arm B =
[Single U, Single U]), yet minimize_free_energy does not return a pair of
energies at all: the bulge branch promoting arm A yields [Loop [G], Loop [A]],
whose recursive search panics for lack of a Single to promote. -/
theorem claim_C3_counterexample :
    minimize_free_energy
      ⟨[RnaSegment.Single RnaNucleotide.A, RnaSegment.Loop [RnaNucleotide.G],
        RnaSegment.Loop [RnaNucleotide.C, RnaNucleotide.C, RnaNucleotide.C],
        RnaSegment.Single RnaNucleotide.U, RnaSegment.Single RnaNucleotide.U]⟩ =
      none := rfl

/-- C3 witness: the amended theorem applied to concrete scenario 1. -/
theorem claim_C3_witness :
    minimize_free_energy scenario1_structure = some (scenario1_structure, 4, 4) ∧
      (4 : Nat) ≤ 4 :=
  ⟨rfl, claim_C3_minimize_monotone scenario1_structure scenario1_structure 4 4 rfl⟩

/- == Claim C7 == -/

/-- C7: paired_free_energy equals penaltyA + penaltyB - 2 * h, where each arm
penalty counts each Loop segment with its full base count and each Single
segment with 1, and h counts the positions of the position-wise zip of the two
arms' in-order Single bases at which the canonical pairing relation holds. -/
theorem claim_C7_score_formula (sa sb : RnaStructure) :
    paired_free_energy sa sb =
      spec_penalty sa.segments + spec_penalty sb.segments -
        2 * spec_h_bonds (spec_singles sa.segments) (spec_singles sb.segments) := by
  rw [paired_free_energy_eq, Nat.mul_comm]

/- == Claim C9 == -/

/-- C9: on the input "AAAA{CCCC}UUUU" the parser produces the expected
structure and minimize_free_energy returns initial energy 4 and optimized
energy 4 (and the structure itself is unchanged by the optimization). -/
theorem claim_C9_scenario1 :
    parse_sequence scenario1_chars = Except.ok scenario1_structure ∧
    minimize_free_energy scenario1_structure =
      some (scenario1_structure, 4, 4) :=
  ⟨rfl, rfl⟩

/- == Claim C10 == -/

/-- C10: the usize subtraction in paired_free_energy never underflows: twice
the bond count over the zipped Single strands collected by the scan is at most
the sum of the two accumulated penalties, and consequently the subtraction is
exact. -/
theorem claim_C10_no_underflow (sa sb : RnaStructure) :
    spec_h_bonds (arm_scan sa.segments).2 (arm_scan sb.segments).2 * 2 ≤
      (arm_scan sa.segments).1 + (arm_scan sb.segments).1 ∧
    paired_free_energy sa sb +
      spec_h_bonds (arm_scan sa.segments).2 (arm_scan sb.segments).2 * 2 =
      (arm_scan sa.segments).1 + (arm_scan sb.segments).1 := by
  rw [arm_scan_fst, arm_scan_snd, arm_scan_fst, arm_scan_snd]
  exact ⟨h_bonds_bound sa sb, paired_free_energy_add_h sa sb⟩

/- == Claim C5: candidate evaluation and the first-wins tie-break == -/

theorem search_step_eval {f : Nat} (sa sb : RnaStructure)
    (hm : sa.segments.length + sb.segments.length ≤ f + 1) :
    search_step (search_go f) sa sb = eval_candidate sa sb :=
  search_step_congr (fun x y hxy => search_go_stable f x y hxy) sa sb hm

/-- C5: strand_permute_search evaluates exactly the three candidates (unchanged
alignment, bulge on arm A, bulge on arm B, in this order) and on equal minimal
candidate energies returns the earliest candidate in evaluation order. -/
theorem claim_C5_tie_break (sa sb sa_bulge sb_bulge : RnaStructure)
    (r1 r2 r3 : RnaStructure × RnaStructure) (e1 e2 e3 : Nat)
    (hpa : with_first_single_looped sa = some sa_bulge)
    (hpb : with_first_single_looped sb = some sb_bulge)
    (h1 : eval_candidate sa sb = some (r1, e1))
    (h2 : eval_candidate sa_bulge sb = some (r2, e2))
    (h3 : eval_candidate sa sb_bulge = some (r3, e3)) :
    (e1 ≤ e2 → e1 ≤ e3 → strand_permute_search sa sb = some (r1, e1)) ∧
    (e2 < e1 → e2 ≤ e3 → strand_permute_search sa sb = some (r2, e2)) := by
  have hne : sa.segments ≠ [] := with_first_single_looped_ne_nil hpa
  have hM1 : 1 ≤ sa.segments.length + sb.segments.length := by
    cases hla : sa.segments with
    | nil => exact absurd hla hne
    | cons x xs => simp only [List.length_cons]; omega
  obtain ⟨f, hf⟩ : ∃ f, sa.segments.length + sb.segments.length = f + 1 :=
    ⟨sa.segments.length + sb.segments.length - 1, by omega⟩
  have hmain : strand_permute_search sa sb =
      some (min_first (min_first (r1, e1) (r2, e2)) (r3, e3)) := by
    unfold strand_permute_search
    rw [hf, search_go_succ_eq, hpa, hpb]
    dsimp only
    rw [search_step_eval sa sb (by omega),
      search_step_eval sa_bulge sb
        (by rw [with_first_single_looped_length hpa]; omega),
      search_step_eval sa sb_bulge
        (by rw [with_first_single_looped_length hpb]; omega),
      h1, h2, h3]
  constructor
  · intro h12 h13
    rw [hmain, @min_first_eq_left (r1, e1) (r2, e2) h12,
      @min_first_eq_left (r1, e1) (r3, e3) h13]
  · intro h21 h23
    rw [hmain, @min_first_eq_right (r1, e1) (r2, e2) h21,
      @min_first_eq_left (r2, e2) (r3, e3) h23]

/-- C5 witness: the theorem applied to two one-base arms whose three candidates
all have energy 2; the first candidate (the unchanged alignment) is returned. -/
theorem claim_C5_witness :
    strand_permute_search ⟨[RnaSegment.Single RnaNucleotide.A]⟩
        ⟨[RnaSegment.Single RnaNucleotide.A]⟩ =
      some ((⟨[RnaSegment.Single RnaNucleotide.A]⟩,
             ⟨[RnaSegment.Single RnaNucleotide.A]⟩), 2) :=
  (claim_C5_tie_break
      ⟨[RnaSegment.Single RnaNucleotide.A]⟩ ⟨[RnaSegment.Single RnaNucleotide.A]⟩
      ⟨[RnaSegment.Loop [RnaNucleotide.A]]⟩ ⟨[RnaSegment.Loop [RnaNucleotide.A]]⟩
      (⟨[RnaSegment.Single RnaNucleotide.A]⟩, ⟨[RnaSegment.Single RnaNucleotide.A]⟩)
      (⟨[RnaSegment.Loop [RnaNucleotide.A]]⟩, ⟨[RnaSegment.Single RnaNucleotide.A]⟩)
      (⟨[RnaSegment.Single RnaNucleotide.A]⟩, ⟨[RnaSegment.Loop [RnaNucleotide.A]]⟩)
      2 2 2 rfl rfl rfl rfl rfl).1 (by decide) (by decide)

/- == Claim C6: the major-loop selection == -/

theorem major_fold_le {m : Nat} :
    ∀ (l : List (Nat × RnaSegment)) (acc : Option (Nat × RnaSegment)),
      (∀ x ∈ l, seg_key x.2 ≤ m) →
      (∀ y, acc = some y → seg_key y.2 ≤ m) →
      ∀ z, List.foldl major_step acc l = some z → seg_key z.2 ≤ m := by
  intro l
  induction l with
  | nil => intro acc _ hacc z hz; exact hacc z hz
  | cons x xs ih =>
    intro acc hl hacc z hz
    rw [List.foldl_cons] at hz
    refine ih (major_step acc x) (fun u hu => hl u (by simp [hu])) ?_ z hz
    intro y hy
    cases acc with
    | none =>
      have hy2 : some x = some y := hy
      injection hy2 with hy3
      exact hy3 ▸ hl x (by simp)
    | some w =>
      have hy2 : (if seg_key w.2 ≤ seg_key x.2 then some x else some w) = some y := hy
      by_cases hc : seg_key w.2 ≤ seg_key x.2
      · rw [if_pos hc] at hy2
        injection hy2 with hy3
        exact hy3 ▸ hl x (by simp)
      · rw [if_neg hc] at hy2
        injection hy2 with hy3
        exact hy3 ▸ hacc w rfl

theorem major_fold_keep {y : Nat × RnaSegment} :
    ∀ l : List (Nat × RnaSegment),
      (∀ x ∈ l, seg_key x.2 < seg_key y.2) →
      List.foldl major_step (some y) l = some y := by
  intro l
  induction l with
  | nil => intro _; rfl
  | cons x xs ih =>
    intro hl
    rw [List.foldl_cons]
    have hx : seg_key x.2 < seg_key y.2 := hl x (by simp)
    have hstep : major_step (some y) x = some y := by
      show (if seg_key y.2 ≤ seg_key x.2 then some x else some y) = some y
      rw [if_neg (by omega)]
    rw [hstep]
    exact ih (fun u hu => hl u (by simp [hu]))

theorem enum_from_append (l1 l2 : List RnaSegment) :
    ∀ n, List.enumFrom n (l1 ++ l2) =
      List.enumFrom n l1 ++ List.enumFrom (n + l1.length) l2 := by
  induction l1 with
  | nil => intro n; simp [List.enumFrom]
  | cons x xs ih =>
    intro n
    show List.enumFrom n (x :: (xs ++ l2)) = _
    rw [show List.enumFrom n (x :: (xs ++ l2)) =
        (n, x) :: List.enumFrom (n + 1) (xs ++ l2) from rfl]
    rw [ih (n + 1)]
    rw [show List.enumFrom n (x :: xs) = (n, x) :: List.enumFrom (n + 1) xs from rfl]
    rw [List.cons_append]
    rw [show n + (x :: xs).length = n + 1 + xs.length from by
      simp only [List.length_cons]; omega]

theorem mem_enum_from_snd :
    ∀ (l : List RnaSegment) (n : Nat) (x : Nat × RnaSegment),
      x ∈ List.enumFrom n l → x.2 ∈ l := by
  intro l
  induction l with
  | nil => intro n x hx; simp [List.enumFrom] at hx
  | cons a as ih =>
    intro n x hx
    rw [show List.enumFrom n (a :: as) = (n, a) :: List.enumFrom (n + 1) as from rfl]
      at hx
    rcases List.mem_cons.mp hx with h | h
    · subst h; simp
    · exact List.mem_cons_of_mem _ (ih (n + 1) x h)

/-- C6 (amended): split_at_major_loop selects the segment at the last index
maximizing the key (Loop base count, 0 for Singles). When every segment after
a Loop has a strictly smaller key — in particular whenever the tied greatest
base count is at least 1 and the Loop is the last one attaining it — that Loop
is selected, together with the reversed prefix and the untouched suffix. When
empty Loops tie at count 0, a later Single (key 0 as well) is selected instead,
so the original claim fails in that case. -/
theorem claim_C6_major_loop_tie_break (pre post : List RnaSegment)
    (bases : List RnaNucleotide)
    (hpre : ∀ seg ∈ pre, seg_key seg ≤ bases.length)
    (hpost : ∀ seg ∈ post, seg_key seg < bases.length) :
    split_at_major_loop ⟨pre ++ RnaSegment.Loop bases :: post⟩ =
      some (⟨pre.reverse⟩, RnaSegment.Loop bases, ⟨post⟩) := by
  have hpick : pick_major (List.enum (pre ++ RnaSegment.Loop bases :: post)) =
      some (pre.length, RnaSegment.Loop bases) := by
    unfold pick_major
    rw [show List.enum (pre ++ RnaSegment.Loop bases :: post) =
        List.enumFrom 0 (pre ++ RnaSegment.Loop bases :: post) from rfl]
    rw [enum_from_append pre (RnaSegment.Loop bases :: post) 0]
    rw [show List.enumFrom (0 + pre.length) (RnaSegment.Loop bases :: post) =
        (pre.length, RnaSegment.Loop bases) ::
          List.enumFrom (pre.length + 1) post from by
      simp [List.enumFrom]]
    rw [List.foldl_append, List.foldl_cons]
    have hmid : major_step (List.foldl major_step none (List.enumFrom 0 pre))
        (pre.length, RnaSegment.Loop bases) =
        some (pre.length, RnaSegment.Loop bases) := by
      cases hacc : List.foldl major_step none (List.enumFrom 0 pre) with
      | none => rfl
      | some y =>
        have hy : seg_key y.2 ≤ bases.length :=
          major_fold_le (List.enumFrom 0 pre) none
            (fun x hx => hpre x.2 (mem_enum_from_snd pre 0 x hx))
            (fun u hu => by simp at hu) y hacc
        show (if seg_key y.2 ≤ seg_key (RnaSegment.Loop bases)
            then some (pre.length, RnaSegment.Loop bases) else some y) =
          some (pre.length, RnaSegment.Loop bases)
        rw [if_pos (by simpa [seg_key] using hy)]
    rw [hmid]
    exact major_fold_keep _ (fun x hx => by
      have hk := hpost x.2 (mem_enum_from_snd post (pre.length + 1) x hx)
      simpa [seg_key] using hk)
  unfold split_at_major_loop
  rw [show (⟨pre ++ RnaSegment.Loop bases :: post⟩ : RnaStructure).segments =
      pre ++ RnaSegment.Loop bases :: post from rfl]
  rw [hpick]
  dsimp only
  have htake : (pre ++ RnaSegment.Loop bases :: post).take pre.length = pre :=
    List.take_left _ _
  have hdrop : (pre ++ RnaSegment.Loop bases :: post).drop (pre.length + 1) =
      post := by
    rw [show pre ++ RnaSegment.Loop bases :: post =
        (pre ++ [RnaSegment.Loop bases]) ++ post from by simp]
    rw [show pre.length + 1 = (pre ++ [RnaSegment.Loop bases]).length from by simp]
    exact List.drop_left _ _
  rw [htake, hdrop]

/-- C6 counterexample: two empty Loops tie for the greatest base count (0), but
split_at_major_loop selects the trailing Single, not the last such Loop. -/
theorem claim_C6_counterexample :
    split_at_major_loop ⟨[RnaSegment.Loop [], RnaSegment.Loop [],
        RnaSegment.Single RnaNucleotide.A]⟩ =
      some (⟨[RnaSegment.Loop [], RnaSegment.Loop []]⟩,
        RnaSegment.Single RnaNucleotide.A, ⟨[]⟩) := rfl

/-- C6 witness: two Loops of length 1 tie; the later one is selected. -/
theorem claim_C6_witness :
    split_at_major_loop ⟨[RnaSegment.Loop [RnaNucleotide.A],
        RnaSegment.Loop [RnaNucleotide.A], RnaSegment.Single RnaNucleotide.U]⟩ =
      some (⟨[RnaSegment.Loop [RnaNucleotide.A]]⟩,
        RnaSegment.Loop [RnaNucleotide.A],
        ⟨[RnaSegment.Single RnaNucleotide.U]⟩) :=
  claim_C6_major_loop_tie_break [RnaSegment.Loop [RnaNucleotide.A]]
    [RnaSegment.Single RnaNucleotide.U] [RnaNucleotide.A]
    (by decide) (by decide)

/- == Parser lemmas == -/

theorem split_once_length (sep : Char) :
    ∀ (cs hd tl : List Char), split_once sep cs = some (hd, tl) →
      hd.length + 1 + tl.length = cs.length := by
  intro cs
  induction cs with
  | nil => intro hd tl h; simp [split_once] at h
  | cons c cs' ih =>
    intro hd tl h
    unfold split_once at h
    by_cases hc : c = sep
    · rw [if_pos hc] at h
      injection h with h'
      have h1 : hd = [] := (congrArg Prod.fst h').symm
      have h2 : tl = cs' := (congrArg Prod.snd h').symm
      subst h1; subst h2
      simp only [List.length_nil, List.length_cons]
      omega
    · rw [if_neg hc] at h
      cases hsp : split_once sep cs' with
      | none => rw [hsp] at h; simp at h
      | some p =>
        rw [hsp] at h
        dsimp only [Option.map] at h
        injection h with h'
        have h1 : hd = c :: p.1 := (congrArg Prod.fst h').symm
        have h2 : tl = p.2 := (congrArg Prod.snd h').symm
        subst h1; subst h2
        have := ih p.1 p.2 (by rw [hsp])
        simp only [List.length_cons]
        omega

theorem split_once_append (sep : Char) (l1 l2 : List Char) (h : sep ∉ l1) :
    split_once sep (l1 ++ sep :: l2) = some (l1, l2) := by
  induction l1 with
  | nil =>
    show split_once sep (sep :: l2) = some ([], l2)
    unfold split_once
    rw [if_pos rfl]
  | cons c cs ih =>
    have hc : c ≠ sep := fun hh => h (hh ▸ List.mem_cons_self _ _)
    show split_once sep (c :: (cs ++ sep :: l2)) = _
    unfold split_once
    rw [if_neg hc, ih (fun hm => h (List.mem_cons_of_mem _ hm))]
    rfl

theorem collect_results_ok :
    ∀ rs : List (Except ParseError RnaNucleotide),
      (∀ r ∈ rs, result_ok r = true) → ∃ l, collect_results rs = .ok l := by
  intro rs
  induction rs with
  | nil => intro _; exact ⟨[], rfl⟩
  | cons r rest ih =>
    intro hall
    obtain ⟨l, hl⟩ := ih (fun u hu => hall u (by simp [hu]))
    cases r with
    | error e =>
      have := hall (.error e) (by simp)
      simp [result_ok] at this
    | ok n =>
      refine ⟨n :: l, ?_⟩
      show (match collect_results rest with
        | .error e => .error e
        | .ok ns => .ok (n :: ns)) = Except.ok (n :: l)
      rw [hl]

theorem parse_nucleotides_ok (cs : List Char) :
    ∃ l, parse_nucleotides cs = .ok l :=
  collect_results_ok _ (fun r hr => List.mem_takeWhile_imp hr)

theorem parse_nucleotides_cons {c : Char} {n : RnaNucleotide}
    (hc : parse_single c = .ok n) {cs : List Char} {l : List RnaNucleotide}
    (hl : parse_nucleotides cs = .ok l) :
    parse_nucleotides (c :: cs) = .ok (n :: l) := by
  unfold parse_nucleotides at *
  rw [List.map_cons, hc]
  rw [show (Except.ok n :: List.map parse_single cs).takeWhile result_ok =
      Except.ok n :: (List.map parse_single cs).takeWhile result_ok from by
    simp [List.takeWhile_cons, result_ok]]
  show collect_results (.ok n :: (List.map parse_single cs).takeWhile result_ok) =
    .ok (n :: l)
  unfold collect_results
  rw [hl]

theorem parse_go_congr : ∀ n : Nat, ∀ cs : List Char, cs.length ≤ n →
    ∀ f1 f2 : Nat, cs.length ≤ f1 → cs.length ≤ f2 →
      parse_sequence_go f1 cs = parse_sequence_go f2 cs := by
  intro n
  induction n with
  | zero =>
    intro cs hlen f1 f2 _ _
    have hnil : cs = [] := List.length_eq_zero.mp (Nat.le_zero.mp hlen)
    subst hnil
    cases f1 <;> cases f2 <;> rfl
  | succ n ih =>
    intro cs hlen f1 f2 hf1 hf2
    cases cs with
    | nil => cases f1 <;> cases f2 <;> rfl
    | cons c cs' =>
      simp only [List.length_cons] at hlen hf1 hf2
      cases f1 with
      | zero => omega
      | succ g1 =>
        cases f2 with
        | zero => omega
        | succ g2 =>
          simp only [parse_sequence_go]
          by_cases hc : c = lbrace
          · rw [if_pos hc, if_pos hc]
            cases hsp : split_once rbrace cs' with
            | none => rfl
            | some p =>
              obtain ⟨hd, tl⟩ := p
              dsimp only
              have hlsp := split_once_length rbrace cs' hd tl hsp
              simp only [ih tl (by omega) g1 g2 (by omega) (by omega)]
          · rw [if_neg hc, if_neg hc]
            simp only [ih cs' (by omega) g1 g2 (by omega) (by omega)]

theorem parse_sequence_brace (rest : List Char) :
    parse_sequence (lbrace :: rest) =
      match split_once rbrace rest with
      | none => .error .unterminatedLoop
      | some (head, tail) =>
        match parse_nucleotides head with
        | .error e => .error e
        | .ok bases =>
          match parse_sequence tail with
          | .error e => .error e
          | .ok s => .ok ⟨RnaSegment.Loop bases :: s.segments⟩ := by
  show parse_sequence_go (lbrace :: rest).length (lbrace :: rest) = _
  rw [show (lbrace :: rest).length = rest.length + 1 from by simp]
  simp only [parse_sequence_go, if_true]
  cases hsp : split_once rbrace rest with
  | none => rfl
  | some p =>
    obtain ⟨hd, tl⟩ := p
    dsimp only
    have hlsp := split_once_length rbrace rest hd tl hsp
    simp only [show parse_sequence_go rest.length tl = parse_sequence tl from
      parse_go_congr rest.length tl (by omega) rest.length tl.length (by omega)
        (le_refl _)]

/- == Claim C4 == -/

/-- C4 (corrected): an unrecognized nucleotide token at top level makes
parse_sequence fail with the invalid-token error, but inside a brace-delimited
loop run decoding never fails: parse_nucleotides always returns ok, silently
truncating at the first invalid token, so parsing can succeed with the
offending characters dropped. -/
theorem claim_C4_invalid_token_handling :
    (∀ (c : Char) (rest : List Char) (e : ParseError), c ≠ lbrace →
      parse_single c = .error e → parse_sequence (c :: rest) = .error e) ∧
    ∀ cs : List Char, result_ok (parse_nucleotides cs) = true := by
  constructor
  · intro c rest e hc hpe
    show parse_sequence_go (c :: rest).length (c :: rest) = .error e
    rw [show (c :: rest).length = rest.length + 1 from by simp]
    simp only [parse_sequence_go]
    rw [if_neg hc, hpe]
  · intro cs
    obtain ⟨l, hl⟩ := parse_nucleotides_ok cs
    rw [hl]
    rfl

/-- C4 counterexample: the input "{AX}" contains the unrecognized token X inside
a brace-delimited run, yet parsing succeeds, with X dropped, instead of failing
with an invalid-token error. -/
theorem claim_C4_counterexample :
    parse_sequence [lbrace, 'A', 'X', rbrace] =
      Except.ok ⟨[RnaSegment.Loop [RnaNucleotide.A]]⟩ := rfl

/-- C4 witness: the amended theorem applied to a top-level invalid token and to
a truncating run. -/
theorem claim_C4_witness :
    parse_sequence ['X'] = Except.error (ParseError.invalidToken 'X') ∧
    result_ok (parse_nucleotides ['A', 'X', 'G']) = true :=
  ⟨claim_C4_invalid_token_handling.1 'X' [] (ParseError.invalidToken 'X')
      (by decide) rfl,
   claim_C4_invalid_token_handling.2 ['A', 'X', 'G']⟩

/- == Claim C8 == -/

/-- C8 (amended): the Loop produced by the parser for a brace-delimited run
holds the decoding of the run's longest valid prefix, so it is non-empty
whenever the run begins with a valid nucleotide token; a run that does not
(such as the empty run in the input consisting of the two braces alone)
produces an empty Loop instead, violating the length-at-least-1 data-model
invariant. -/
theorem claim_C8_loop_nonempty (c : Char) (n : RnaNucleotide) (hd tl : List Char)
    (s : RnaStructure)
    (hnb : rbrace ∉ (c :: hd))
    (hc : parse_single c = .ok n)
    (hparse : parse_sequence (lbrace :: ((c :: hd) ++ rbrace :: tl)) = .ok s) :
    head_is_nonempty_loop s = true := by
  rw [parse_sequence_brace] at hparse
  rw [split_once_append rbrace (c :: hd) tl hnb] at hparse
  dsimp only at hparse
  obtain ⟨l, hl⟩ := parse_nucleotides_ok hd
  rw [parse_nucleotides_cons hc hl] at hparse
  dsimp only at hparse
  cases hps : parse_sequence tl with
  | error e => rw [hps] at hparse; simp at hparse
  | ok srest =>
    rw [hps] at hparse
    dsimp only at hparse
    injection hparse with h'
    rw [← h']
    rfl

/-- C8 counterexample: the accepted input consisting of an opening and closing
brace parses to a structure whose Loop segment holds zero nucleotides. -/
theorem claim_C8_counterexample :
    parse_sequence [lbrace, rbrace] = Except.ok ⟨[RnaSegment.Loop []]⟩ := rfl

/-- C8 witness: the amended theorem applied to the input consisting of a braced
A followed by a U. -/
theorem claim_C8_witness :
    head_is_nonempty_loop ⟨[RnaSegment.Loop [RnaNucleotide.A],
      RnaSegment.Single RnaNucleotide.U]⟩ = true :=
  claim_C8_loop_nonempty 'A' RnaNucleotide.A [] ['U']
    ⟨[RnaSegment.Loop [RnaNucleotide.A], RnaSegment.Single RnaNucleotide.U]⟩
    (by decide) rfl rfl
